import Mathlib

/-!
Verification of the MinerU processing-registry scripts against their
specification.  The definitions below are shallow embeddings of the Python
functions in scripts/mineru_registry.py, scripts/merge_mineru_results.py,
scripts/generate_cleanup_swarm.py and scripts/process_pdfs_mineru.py:
the DuckDB table becomes a list of records, SQL UPDATE/INSERT statements
become list transformations, and CURRENT_TIMESTAMP becomes an explicit
time parameter threaded through every mutating operation.
-/

namespace MinerU

/-- Model of Python str.strip with no arguments: remove whitespace from both
ends of the string.  Implemented structurally on the character list so that
it evaluates inside the kernel. -/
def pyStrip (s : String) : String :=
  ⟨((s.data.dropWhile Char.isWhitespace).reverse.dropWhile Char.isWhitespace).reverse⟩

/-- Model of the Python idiom `value.strip() or None` used when normalising
result-report fields in cmd_update and update_registry: an empty stripped
string becomes NULL. -/
def strOrNone (s : String) : Option String :=
  if pyStrip s = "" then none else some (pyStrip s)

/-- One row of the mineru_status DuckDB table (schema created by
init_schema in scripts/mineru_registry.py).  Timestamps are modelled as
naturals, processing_time as an optional rational (the parsed float). -/
structure Record where
  pmid : String
  pdf_path : String
  json_path : Option String
  md_path : Option String
  status : String
  error_msg : Option String
  processing_time : Option ℚ
  file_size : Option Nat
  created_at : Nat
  updated_at : Nat
deriving DecidableEq

/-- One normalised row of a result report, as read by cmd_update in
scripts/mineru_registry.py and update_registry in
scripts/merge_mineru_results.py.  String fields hold the raw CSV values;
processing_time holds the already-parsed float (None when absent or
unparsable, matching the try/except around float()). -/
structure ResultRow where
  pmid : String
  status : String
  json_path : String
  md_path : String
  error_msg : String
  processing_time : Option ℚ
deriving DecidableEq

/-- The registry is the list of rows of the mineru_status table.  The pmid
column is the primary key, so in reachable states pmids are distinct. -/
abbrev Registry := List Record

/-- Applying one result-report row: the body of the loop in cmd_update
(scripts/mineru_registry.py, lines 237-268) and of update_registry
(scripts/merge_mineru_results.py, lines 175-204).  A row whose stripped
pmid is empty is skipped; otherwise the SQL UPDATE sets status, json_path,
md_path, error_msg, processing_time and updated_at = CURRENT_TIMESTAMP on
the row whose pmid matches (a no-op when the pmid is absent).  The SET
list of that UPDATE, as a per-record function. -/
def applyRowToRecord (t : Nat) (row : ResultRow) (r : Record) : Record :=
  { r with
    status := pyStrip row.status
    json_path := strOrNone row.json_path
    md_path := strOrNone row.md_path
    error_msg := strOrNone row.error_msg
    processing_time := row.processing_time
    updated_at := t }

/-- The whole per-row statement: skip rows with an empty stripped pmid,
otherwise run the UPDATE of applyRowToRecord on the matching row. -/
def applyResultRow (t : Nat) (reg : Registry) (row : ResultRow) : Registry :=
  if pyStrip row.pmid = "" then reg
  else reg.map fun r => if r.pmid = pyStrip row.pmid then applyRowToRecord t row r else r

/-- cmd_update / update_registry over a whole results file: apply every row
in file order.  The per-row CURRENT_TIMESTAMP is modelled by a single time
parameter for the run. -/
def cmd_update (t : Nat) (reg : Registry) (rows : List ResultRow) : Registry :=
  rows.foldl (applyResultRow t) reg

/-- The fresh pending row built by the INSERT statements of cmd_init and
cmd_scan_pdfs: pending status, NULL output paths, error and time, and
created_at = updated_at = CURRENT_TIMESTAMP. -/
def freshRecord (t : Nat) (pmid pdf_path : String) (file_size : Option Nat) : Record :=
  { pmid := pmid, pdf_path := pdf_path, json_path := none, md_path := none,
    status := "pending", error_msg := none, processing_time := none,
    file_size := file_size, created_at := t, updated_at := t }

/-- The INSERT ... ON CONFLICT (pmid) DO NOTHING statement used by cmd_init
(scripts/mineru_registry.py, lines 122-126) and cmd_scan_pdfs (lines
606-613): a new pending record is appended unless the pmid already exists,
in which case nothing changes.  The Boolean is whether a row was inserted,
the spec's insertIfAbsent return value. -/
def insertIfAbsent (t : Nat) (pmid pdf_path : String) (file_size : Option Nat)
    (reg : Registry) : Bool × Registry :=
  if reg.any (fun r => r.pmid = pmid) then (false, reg)
  else (true, reg ++ [freshRecord t pmid pdf_path file_size])

/-- One discovered input file: the (pmid, pdf_path, file_size) triple built
by the directory walk in cmd_scan_pdfs before the batched insert. -/
structure PdfEntry where
  pmid : String
  pdf_path : String
  file_size : Option Nat
deriving DecidableEq

/-- cmd_scan_pdfs (scripts/mineru_registry.py, lines 539-661) restricted to
its registry effect: every discovered entry is inserted if absent.  The
in-memory existing set plus ON CONFLICT DO NOTHING make the net effect of
each entry exactly insertIfAbsent. -/
def cmd_scan_pdfs (t : Nat) (entries : List PdfEntry) (reg : Registry) : Registry :=
  entries.foldl (fun r e => (insertIfAbsent t e.pmid e.pdf_path e.file_size r).2) reg

/-- The per-record effect of the UPDATE in cmd_retry_failed
(scripts/mineru_registry.py, lines 367-374): a failed record becomes
pending with error_msg and processing_time cleared and updated_at set;
any other record is untouched. -/
def retryResetRecord (t : Nat) (r : Record) : Record :=
  if r.status = "failed" then
    { r with status := "pending", error_msg := none, processing_time := none,
             updated_at := t }
  else r

/-- cmd_retry_failed (scripts/mineru_registry.py, lines 347-380): count the
failed records; when there are none return immediately, otherwise run the
bulk UPDATE.  Returns the reported reset count and the new registry. -/
def cmd_retry_failed (t : Nat) (reg : Registry) : Nat × Registry :=
  if reg.countP (fun r => r.status = "failed") = 0 then (0, reg)
  else (reg.countP (fun r => r.status = "failed"), reg.map (retryResetRecord t))

/-- One discovered output artifact in cmd_scan_outputs: the pmid extracted
from the content-list filename, the artifact path, and the sibling
markdown path when that file exists. -/
structure Artifact where
  pmid : String
  json_path : String
  md_path : Option String
deriving DecidableEq

/-- The UPDATE executed per discovered artifact in cmd_scan_outputs
(scripts/mineru_registry.py, lines 412-419): set status completed with the
artifact paths and updated_at, but only WHERE pmid matches AND the stored
status is not already completed.  Note that error_msg and processing_time
are not in the SET list.  This is its per-record SET list. -/
def scanRecordUpdate (t : Nat) (a : Artifact) (r : Record) : Record :=
  { r with status := "completed", json_path := some a.json_path,
           md_path := a.md_path, updated_at := t }

/-- The whole per-artifact UPDATE of cmd_scan_outputs: run scanRecordUpdate
on the row WHERE pmid = artifact pmid AND status != completed. -/
def scanOutputOne (t : Nat) (a : Artifact) (reg : Registry) : Registry :=
  reg.map fun r =>
    if r.pmid = a.pmid ∧ r.status ≠ "completed" then scanRecordUpdate t a r else r

/-- cmd_scan_outputs (scripts/mineru_registry.py, lines 383-428) restricted
to its registry effect: apply scanOutputOne for every artifact found by the
output-tree walk. -/
def cmd_scan_outputs (t : Nat) (arts : List Artifact) (reg : Registry) : Registry :=
  arts.foldl (fun r a => scanOutputOne t a r) reg

/-- cmd_update_sizes (scripts/mineru_registry.py, lines 462-536) restricted
to its registry effect: for every record with NULL file_size whose file can
be stat-ed (getSize returns some), run UPDATE mineru_status SET
file_size = ? WHERE pmid = ?.  The SET list contains only file_size:
updated_at is not touched. -/
def cmd_update_sizes (getSize : String → Option Nat) (reg : Registry) : Registry :=
  reg.map fun r =>
    if r.file_size = none then
      match getSize r.pdf_path with
      | some sz => { r with file_size := some sz }
      | none => r
    else r

/-- A concrete pending record used to instantiate theorems. -/
def samplePending : Record :=
  { pmid := "100001", pdf_path := "/a.pdf", json_path := none, md_path := none,
    status := "pending", error_msg := none, processing_time := none,
    file_size := none, created_at := 0, updated_at := 0 }

/-- A concrete failed record used to instantiate theorems. -/
def sampleFailed : Record :=
  { pmid := "100001", pdf_path := "/a.pdf", json_path := none, md_path := none,
    status := "failed", error_msg := some "boom", processing_time := none,
    file_size := none, created_at := 0, updated_at := 1 }

/-- A concrete completed record used to instantiate theorems. -/
def sampleCompleted : Record :=
  { pmid := "100002", pdf_path := "/b.pdf", json_path := some "/out/100002_content_list.json",
    md_path := some "/out/100002.md", status := "completed", error_msg := none,
    processing_time := none, file_size := none, created_at := 0, updated_at := 1 }

/-- A concrete completed result-report row used to instantiate theorems. -/
def sampleCompletedRow : ResultRow :=
  { pmid := "100001", status := "completed", json_path := "/out/100001_content_list.json",
    md_path := "/out/100001.md", error_msg := "", processing_time := none }

/-- C1 counterexample input: applying sampleCompletedRow twice, at times 0
and then 1, is compared against applying it once at time 0. -/
def c1Once : Registry := applyResultRow 0 [samplePending] sampleCompletedRow

/-- C1 counterexample: the state after the second application. -/
def c1Twice : Registry := applyResultRow 1 c1Once sampleCompletedRow

/-- C1 (counterexample): result application is not literally idempotent on
all fields.  On a registry holding the row's pmid, applying the same
result-report row twice (the second application at a later clock value)
yields a state that differs from applying it once, because the SQL UPDATE
sets updated_at = CURRENT_TIMESTAMP unconditionally on every application. -/
theorem applyResultRow_twice_ne_once : c1Twice ≠ c1Once := by decide

/-- C1 (amended): result application is idempotent on every field except
updated_at.  Applying the same report row twice equals applying it once at
the time of the second application; in particular all of status, json_path,
md_path, error_msg and processing_time agree with a single application, and
a repeat application at an unchanged clock is a strict no-op. -/
theorem applyResultRow_absorb (t₁ t₂ : Nat) (reg : Registry) (row : ResultRow) :
    applyResultRow t₂ (applyResultRow t₁ reg row) row = applyResultRow t₂ reg row := by
  by_cases h : pyStrip row.pmid = ""
  · simp [applyResultRow, h]
  · simp only [applyResultRow, if_neg h, List.map_map]
    refine List.map_congr_left fun r _ => ?_
    by_cases hr : r.pmid = pyStrip row.pmid
    · simp [Function.comp, hr, applyRowToRecord]
    · simp [Function.comp, hr]

/-- Helper: a map that fixes every element is the identity. -/
theorem map_eq_self_of_fixes {α : Type} (l : List α) (f : α → α)
    (h : ∀ a ∈ l, f a = a) : l.map f = l := by
  calc l.map f = l.map id := List.map_congr_left h
  _ = l := List.map_id l

/-- C4: retry reset.  The registry produced by cmd_retry_failed is the
pointwise reset of the input; the reset sends every failed record to
pending with error_msg and processing_time cleared, leaves every
non-failed record completely unchanged, reports exactly the number of
previously failed records, and a second immediate call resets zero rows
and changes nothing. -/
theorem cmd_retry_failed_spec (t tt : Nat) (reg : Registry) :
    (cmd_retry_failed t reg).2 = reg.map (retryResetRecord t) ∧
    (cmd_retry_failed t reg).1 = reg.countP (fun r => r.status = "failed") ∧
    (∀ r : Record, r.status = "failed" →
      (retryResetRecord t r).status = "pending" ∧
      (retryResetRecord t r).error_msg = none ∧
      (retryResetRecord t r).processing_time = none) ∧
    (∀ r : Record, r.status ≠ "failed" → retryResetRecord t r = r) ∧
    cmd_retry_failed tt (cmd_retry_failed t reg).2 = (0, (cmd_retry_failed t reg).2) := by
  have hfix : ∀ r : Record, r.status ≠ "failed" → retryResetRecord t r = r := by
    intro r hr
    simp [retryResetRecord, hr]
  have hsnd : (cmd_retry_failed t reg).2 = reg.map (retryResetRecord t) := by
    by_cases h : reg.countP (fun r => r.status = "failed") = 0
    · have hnone : ∀ r ∈ reg, ¬ (r.status = "failed") := by
        intro r hrmem
        have := List.countP_eq_zero.mp h r hrmem
        simpa using this
      simp only [cmd_retry_failed, h, if_pos]
      exact (map_eq_self_of_fixes reg _ fun r hrmem => hfix r (hnone r hrmem)).symm
    · simp [cmd_retry_failed, h]
  have hnofail : ∀ rr ∈ (cmd_retry_failed t reg).2, ¬ (rr.status = "failed") := by
    intro rr hrr
    rw [hsnd] at hrr
    obtain ⟨r, _, hmap⟩ := List.mem_map.mp hrr
    subst hmap
    by_cases hs : r.status = "failed"
    · simp [retryResetRecord, hs]
    · simp [retryResetRecord, hs, hs]
  refine ⟨hsnd, ?_, ?_, hfix, ?_⟩
  · by_cases h : reg.countP (fun r => r.status = "failed") = 0
    · simp [cmd_retry_failed, h]
    · simp [cmd_retry_failed, h]
  · intro r hr
    simp [retryResetRecord, hr]
  · have hcnt : (cmd_retry_failed t reg).2.countP (fun r => r.status = "failed") = 0 :=
      List.countP_eq_zero.mpr (by intro r hr; simpa using hnofail r hr)
    generalize hG : (cmd_retry_failed t reg).2 = X at hcnt ⊢
    unfold cmd_retry_failed
    rw [if_pos hcnt]

/-- C4 witness: cmd_retry_failed at time 5 on a registry with one failed
and one completed record, instantiating every clause of the theorem. -/
theorem cmd_retry_failed_spec_witness :
    (cmd_retry_failed 5 [sampleFailed, sampleCompleted]).2 =
      [sampleFailed, sampleCompleted].map (retryResetRecord 5) ∧
    (retryResetRecord 5 sampleFailed).status = "pending" ∧
    (retryResetRecord 5 sampleFailed).error_msg = none ∧
    (retryResetRecord 5 sampleFailed).processing_time = none ∧
    retryResetRecord 5 sampleCompleted = sampleCompleted ∧
    cmd_retry_failed 6 (cmd_retry_failed 5 [sampleFailed, sampleCompleted]).2 =
      (0, (cmd_retry_failed 5 [sampleFailed, sampleCompleted]).2) := by
  obtain ⟨h1, _, h3, h4, h5⟩ := cmd_retry_failed_spec 5 6 [sampleFailed, sampleCompleted]
  obtain ⟨h3a, h3b, h3c⟩ := h3 sampleFailed (by decide)
  exact ⟨h1, h3a, h3b, h3c, h4 sampleCompleted (by decide), h5⟩

/-- C8: output reconciliation never touches a record whose stored status is
already completed: at every position holding a completed record, the
registry after cmd_scan_outputs holds the identical record, so its
updated_at, json_path and md_path keep their prior values. -/
theorem cmd_scan_outputs_completed_frame (t : Nat) (arts : List Artifact)
    (reg : Registry) (i : Nat) (rec : Record)
    (h1 : reg[i]? = some rec) (h2 : rec.status = "completed") :
    (cmd_scan_outputs t arts reg)[i]? = some rec := by
  induction arts generalizing reg with
  | nil => simpa [cmd_scan_outputs] using h1
  | cons a as ih =>
    have hone : (scanOutputOne t a reg)[i]? = some rec := by
      rw [scanOutputOne, List.getElem?_map, h1]
      simp [h2]
    exact ih (scanOutputOne t a reg) hone

/-- C8 witness: a scan that discovers an artifact for an already-completed
record leaves that record byte-for-byte unchanged. -/
theorem cmd_scan_outputs_completed_frame_witness :
    (cmd_scan_outputs 9
      [{ pmid := "100002", json_path := "/rescan/100002_content_list.json", md_path := none }]
      [sampleCompleted])[0]? = some sampleCompleted :=
  cmd_scan_outputs_completed_frame 9
    [{ pmid := "100002", json_path := "/rescan/100002_content_list.json", md_path := none }]
    [sampleCompleted] 0 sampleCompleted (by decide) (by decide)

/-- Helper: insertIfAbsent never removes records, so any pmid present in
the registry is still present afterwards. -/
theorem insertIfAbsent_mem_mono (t : Nat) (p path : String) (sz : Option Nat)
    (reg : Registry) (q : String) (h : ∃ r ∈ reg, r.pmid = q) :
    ∃ r ∈ (insertIfAbsent t p path sz reg).2, r.pmid = q := by
  obtain ⟨r, hr, hq⟩ := h
  by_cases hany : reg.any (fun r => r.pmid = p)
  · exact ⟨r, by simpa [insertIfAbsent, hany] using hr, hq⟩
  · exact ⟨r, by simp [insertIfAbsent, hany, List.mem_append, hr], hq⟩

/-- Helper: cmd_scan_pdfs never removes records. -/
theorem cmd_scan_pdfs_mem_mono (t : Nat) (entries : List PdfEntry) :
    ∀ (reg : Registry) (q : String), (∃ r ∈ reg, r.pmid = q) →
      ∃ r ∈ cmd_scan_pdfs t entries reg, r.pmid = q := by
  induction entries with
  | nil => intro reg q h; simpa [cmd_scan_pdfs] using h
  | cons e es ih =>
    intro reg q h
    exact ih _ q (insertIfAbsent_mem_mono t e.pmid e.pdf_path e.file_size reg q h)

/-- Helper: after cmd_scan_pdfs, every scanned pmid is present. -/
theorem cmd_scan_pdfs_covers (t : Nat) (entries : List PdfEntry) :
    ∀ (reg : Registry) (e : PdfEntry), e ∈ entries →
      ∃ r ∈ cmd_scan_pdfs t entries reg, r.pmid = e.pmid := by
  induction entries with
  | nil => intro reg e h; cases h
  | cons e0 es ih =>
    intro reg e h
    rcases List.mem_cons.mp h with he | he
    · subst he
      have hpresent : ∃ r ∈ (insertIfAbsent t e.pmid e.pdf_path e.file_size reg).2,
          r.pmid = e.pmid := by
        by_cases hany : reg.any (fun r => r.pmid = e.pmid)
        · obtain ⟨r, hr, hq⟩ := List.any_eq_true.mp hany
          exact ⟨r, by simpa [insertIfAbsent, hany] using hr, by simpa using hq⟩
        · refine ⟨freshRecord t e.pmid e.pdf_path e.file_size, ?_, rfl⟩
          simp [insertIfAbsent, hany]
      exact cmd_scan_pdfs_mem_mono t es _ e.pmid hpresent
    · exact ih _ e he

/-- Helper: if every scanned pmid is already present, cmd_scan_pdfs is the
identity (every insert hits the ON CONFLICT DO NOTHING branch). -/
theorem cmd_scan_pdfs_noop (t : Nat) (entries : List PdfEntry) :
    ∀ reg : Registry, (∀ e ∈ entries, ∃ r ∈ reg, r.pmid = e.pmid) →
      cmd_scan_pdfs t entries reg = reg := by
  induction entries with
  | nil => intro reg _; rfl
  | cons e es ih =>
    intro reg h
    have hany : reg.any (fun r => r.pmid = e.pmid) = true := by
      obtain ⟨r, hr, hq⟩ := h e (List.mem_cons_self e es)
      exact List.any_eq_true.mpr ⟨r, hr, by simpa using hq⟩
    have hstep : (insertIfAbsent t e.pmid e.pdf_path e.file_size reg).2 = reg := by
      simp [insertIfAbsent, hany]
    show cmd_scan_pdfs t es (insertIfAbsent t e.pmid e.pdf_path e.file_size reg).2 = reg
    rw [hstep]
    exact ih reg fun e' he' => h e' (List.mem_cons_of_mem e he')

/-- C9: duplicate insert is a no-op.  Inserting a pmid that already exists
returns false and leaves the registry (hence the existing record and all
its fields) unchanged; insertion preserves uniqueness of pmids, so exactly
one row per pmid exists afterwards; and running the input-directory scan a
second time over the same discovered entries changes nothing, at any later
clock value. -/
theorem insertIfAbsent_duplicate_noop (t tt : Nat) (p path : String)
    (sz : Option Nat) (reg : Registry) (entries : List PdfEntry)
    (hdup : reg.any (fun r => r.pmid = p) = true)
    (hnodup : (reg.map Record.pmid).Nodup) :
    insertIfAbsent t p path sz reg = (false, reg) ∧
    ((insertIfAbsent t p path sz reg).2.map Record.pmid).Nodup ∧
    cmd_scan_pdfs tt entries (cmd_scan_pdfs t entries reg) = cmd_scan_pdfs t entries reg := by
  refine ⟨by simp [insertIfAbsent, hdup], ?_, ?_⟩
  · by_cases hany : reg.any (fun r => r.pmid = p)
    · simpa [insertIfAbsent, hany] using hnodup
    · have hnot : p ∉ reg.map Record.pmid := by
        intro hmem
        obtain ⟨r, hr, hq⟩ := List.mem_map.mp hmem
        exact (by simpa using hany : ∀ x ∈ reg, ¬ x.pmid = p) r hr hq
      have hmap : (insertIfAbsent t p path sz reg).2.map Record.pmid =
          reg.map Record.pmid ++ [p] := by
        simp [insertIfAbsent, freshRecord, hany]
      rw [hmap, List.nodup_append]
      refine ⟨hnodup, List.nodup_singleton p, ?_⟩
      intro a ha hb
      rw [List.mem_singleton] at hb
      subst hb
      exact hnot ha
  · exact cmd_scan_pdfs_noop tt entries _
      (fun e he => cmd_scan_pdfs_covers t entries reg e he)

/-- C9 witness: re-inserting pmid 100001 into a registry that already holds
it returns false and changes nothing; pmid uniqueness is preserved; and a
repeated directory scan over the same discovered entries is a no-op. -/
theorem insertIfAbsent_duplicate_noop_witness :
    insertIfAbsent 7 "100001" "/duplicate.pdf" none [sampleFailed] = (false, [sampleFailed]) ∧
    ((insertIfAbsent 7 "100001" "/duplicate.pdf" none [sampleFailed]).2.map Record.pmid).Nodup ∧
    cmd_scan_pdfs 8 [{ pmid := "100002", pdf_path := "/b.pdf", file_size := some 5 }]
        (cmd_scan_pdfs 7 [{ pmid := "100002", pdf_path := "/b.pdf", file_size := some 5 }]
          [sampleFailed]) =
      cmd_scan_pdfs 7 [{ pmid := "100002", pdf_path := "/b.pdf", file_size := some 5 }]
        [sampleFailed] :=
  insertIfAbsent_duplicate_noop 7 8 "100001" "/duplicate.pdf" none [sampleFailed]
    [{ pmid := "100002", pdf_path := "/b.pdf", file_size := some 5 }] (by decide) (by decide)

/-- Helper: the registry returned by cmd_retry_failed is always the
pointwise reset, also when the early-return branch fires. -/
theorem cmd_retry_failed_snd (t : Nat) (reg : Registry) :
    (cmd_retry_failed t reg).2 = reg.map (retryResetRecord t) := by
  by_cases h : reg.countP (fun r => r.status = "failed") = 0
  · have hnone : ∀ r ∈ reg, ¬ (r.status = "failed") := by
      intro r hrmem
      simpa using List.countP_eq_zero.mp h r hrmem
    simp only [cmd_retry_failed, h, if_pos]
    exact (map_eq_self_of_fixes reg _ fun r hrmem => by
      simp [retryResetRecord, hnone r hrmem]).symm
  · simp [cmd_retry_failed, h]

/-- Helper: every member of the registry after applyResultRow is either an
untouched member of the old registry or the update of a matching member. -/
theorem mem_applyResultRow (t : Nat) (reg : Registry) (row : ResultRow) (r' : Record)
    (h : r' ∈ applyResultRow t reg row) :
    r' ∈ reg ∨ ∃ r ∈ reg, r.pmid = pyStrip row.pmid ∧ r' = applyRowToRecord t row r := by
  by_cases hp : pyStrip row.pmid = ""
  · left
    unfold applyResultRow at h
    rwa [if_pos hp] at h
  · unfold applyResultRow at h
    rw [if_neg hp] at h
    obtain ⟨r, hr, heq⟩ := List.mem_map.mp h
    by_cases hm : r.pmid = pyStrip row.pmid
    · right
      refine ⟨r, hr, hm, ?_⟩
      rw [← heq, if_pos hm]
    · left
      rw [← heq, if_neg hm]
      exact hr

/-- Helper: every member of the registry after scanOutputOne is either an
untouched member of the old registry or the completed update of a matching
not-yet-completed member. -/
theorem mem_scanOutputOne (t : Nat) (a : Artifact) (reg : Registry) (r' : Record)
    (h : r' ∈ scanOutputOne t a reg) :
    r' ∈ reg ∨ ∃ r ∈ reg, (r.pmid = a.pmid ∧ r.status ≠ "completed") ∧
      r' = scanRecordUpdate t a r := by
  unfold scanOutputOne at h
  obtain ⟨r, hr, heq⟩ := List.mem_map.mp h
  by_cases hc : r.pmid = a.pmid ∧ r.status ≠ "completed"
  · right
    refine ⟨r, hr, hc, ?_⟩
    rw [← heq, if_pos hc]
  · left
    rw [← heq, if_neg hc]
    exact hr

/-- The C5 invariant: error_msg is non-null only on failed records. -/
abbrev errorMsgInv (reg : Registry) : Prop :=
  ∀ r ∈ reg, r.error_msg ≠ none → r.status = "failed"

/-- C5 counterexample trace, step 0: insert pmid 100001 as pending. -/
def c5Reg0 : Registry := (insertIfAbsent 0 "100001" "/a.pdf" none []).2

/-- C5 counterexample trace, step 1: a failed result report with an error
message is applied. -/
def c5Reg1 : Registry :=
  applyResultRow 1 c5Reg0
    { pmid := "100001", status := "failed", json_path := "", md_path := "",
      error_msg := "boom", processing_time := none }

/-- C5 counterexample trace, step 2: output reconciliation later finds a
content-list artifact for 100001 and promotes the record to completed. -/
def c5Reg2 : Registry :=
  cmd_scan_outputs 2
    [{ pmid := "100001", json_path := "/out/100001_content_list.json", md_path := none }]
    c5Reg1

/-- C5 (counterexample): the error-message invariant is not maintained by
the public operations.  A state reached by insert, result application
and output reconciliation (c5Reg2) holds a record with status completed
and error_msg still set, because the scan-outputs UPDATE does not clear
error_msg when it promotes a record away from failed. -/
theorem scan_outputs_keeps_error_msg_counterexample :
    errorMsgInv c5Reg1 ∧ ¬ errorMsgInv c5Reg2 ∧
    c5Reg2.map Record.status = ["completed"] ∧
    c5Reg2.map Record.error_msg = [some "boom"] := by decide

/-- C5 (amended): the error-message invariant is preserved by insert, by
retry reset, and by result application whenever the applied row carries a
non-empty error_msg only with status failed; output reconciliation,
however, leaves every record's error_msg unchanged (in particular it does
not clear it on the records it promotes to completed), so the invariant
can be broken by reconciling a failed record. -/
theorem errorMsgInv_amended (t : Nat) (reg : Registry) :
    (errorMsgInv reg → ∀ p path sz, errorMsgInv (insertIfAbsent t p path sz reg).2) ∧
    (errorMsgInv reg → errorMsgInv (cmd_retry_failed t reg).2) ∧
    (errorMsgInv reg → ∀ row : ResultRow,
      (strOrNone row.error_msg ≠ none → pyStrip row.status = "failed") →
      errorMsgInv (applyResultRow t reg row)) ∧
    (∀ (a : Artifact) (i : Nat), ((scanOutputOne t a reg)[i]?).map Record.error_msg =
      (reg[i]?).map Record.error_msg) := by
  refine ⟨?_, ?_, ?_, ?_⟩
  · intro hInv p path sz r' hr'
    by_cases hany : reg.any (fun r => r.pmid = p)
    · exact hInv r' (by simpa [insertIfAbsent, hany] using hr')
    · have hmem : r' ∈ reg ++ [freshRecord t p path sz] := by
        simpa [insertIfAbsent, hany] using hr'
      rcases List.mem_append.mp hmem with hold | hnew
      · exact hInv r' hold
      · rw [List.mem_singleton] at hnew
        subst hnew
        intro hne
        simp [freshRecord] at hne
  · intro hInv r' hr'
    rw [cmd_retry_failed_snd] at hr'
    obtain ⟨r, hr, rfl⟩ := List.mem_map.mp hr'
    by_cases hs : r.status = "failed"
    · intro hne
      simp [retryResetRecord, hs] at hne
    · rw [show retryResetRecord t r = r from by simp [retryResetRecord, hs]]
      exact hInv r hr
  · intro hInv row hrow r' hr'
    rcases mem_applyResultRow t reg row r' hr' with hold | ⟨r, _, _, rfl⟩
    · exact hInv r' hold
    · intro hne
      simp only [applyRowToRecord] at hne ⊢
      exact hrow hne
  · intro a i
    rcases hi : reg[i]? with _ | r
    · simp [scanOutputOne, List.getElem?_map, hi]
    · rw [scanOutputOne, List.getElem?_map, hi]
      by_cases hc : r.pmid = a.pmid ∧ r.status ≠ "completed"
      · simp [hc, scanRecordUpdate]
      · simp [hc]

/-- C5 witness: every clause of the amended theorem instantiated at time 3
on a registry holding one failed record with an error message. -/
theorem errorMsgInv_amended_witness :
    errorMsgInv (insertIfAbsent 3 "100003" "/c.pdf" none [sampleFailed]).2 ∧
    errorMsgInv (cmd_retry_failed 3 [sampleFailed]).2 ∧
    errorMsgInv (applyResultRow 3 [sampleFailed] sampleCompletedRow) ∧
    ((scanOutputOne 3 { pmid := "100001", json_path := "/x.json", md_path := none }
        [sampleFailed])[0]?).map Record.error_msg =
      (([sampleFailed] : Registry)[0]?).map Record.error_msg := by
  obtain ⟨h1, h2, h3, h4⟩ := errorMsgInv_amended 3 [sampleFailed]
  exact ⟨h1 (by decide) "100003" "/c.pdf" none, h2 (by decide),
    h3 (by decide) sampleCompletedRow (by decide), h4 _ 0⟩

/-- The C6 invariant: completed records have a non-null json_path. -/
abbrev completedJsonInv (reg : Registry) : Prop :=
  ∀ r ∈ reg, r.status = "completed" → r.json_path ≠ none

/-- C6 counterexample trace, step 0: insert pmid 100001 as pending. -/
def c6Reg0 : Registry := (insertIfAbsent 0 "100001" "/a.pdf" none []).2

/-- C6 counterexample row: a result report claiming completion but carrying
an empty json_path field. -/
def c6Row : ResultRow :=
  { pmid := "100001", status := "completed", json_path := "", md_path := "",
    error_msg := "", processing_time := none }

/-- C6 counterexample trace, step 1: that row is applied. -/
def c6Reg1 : Registry := applyResultRow 1 c6Reg0 c6Row

/-- C6 (counterexample): applying a result row with status completed does
not preserve the completed-implies-output invariant for every row: with an
empty json_path field the UPDATE stores NULL, leaving a completed record
with no output path. -/
theorem apply_completed_row_empty_json_counterexample :
    completedJsonInv c6Reg0 ∧ ¬ completedJsonInv c6Reg1 ∧
    c6Reg1.map Record.status = ["completed"] ∧
    c6Reg1.map Record.json_path = [none] := by decide

/-- C6 (amended): the completed-implies-output invariant is preserved by
insert, by retry reset, by output reconciliation (which always writes the
discovered artifact path), and by result application whenever the applied
row carries a non-empty json_path when its status is completed; a
completed row with an empty json_path field is the one way to break it. -/
theorem completedJsonInv_amended (t : Nat) (reg : Registry) :
    (completedJsonInv reg → ∀ p path sz, completedJsonInv (insertIfAbsent t p path sz reg).2) ∧
    (completedJsonInv reg → completedJsonInv (cmd_retry_failed t reg).2) ∧
    (completedJsonInv reg → ∀ row : ResultRow,
      (pyStrip row.status = "completed" → strOrNone row.json_path ≠ none) →
      completedJsonInv (applyResultRow t reg row)) ∧
    (completedJsonInv reg → ∀ a : Artifact, completedJsonInv (scanOutputOne t a reg)) := by
  refine ⟨?_, ?_, ?_, ?_⟩
  · intro hInv p path sz r' hr'
    by_cases hany : reg.any (fun r => r.pmid = p)
    · exact hInv r' (by simpa [insertIfAbsent, hany] using hr')
    · have hmem : r' ∈ reg ++ [freshRecord t p path sz] := by
        simpa [insertIfAbsent, hany] using hr'
      rcases List.mem_append.mp hmem with hold | hnew
      · exact hInv r' hold
      · rw [List.mem_singleton] at hnew
        subst hnew
        intro hst
        simp [freshRecord] at hst
  · intro hInv r' hr'
    rw [cmd_retry_failed_snd] at hr'
    obtain ⟨r, hr, rfl⟩ := List.mem_map.mp hr'
    by_cases hs : r.status = "failed"
    · intro hst
      simp [retryResetRecord, hs] at hst
    · rw [show retryResetRecord t r = r from by simp [retryResetRecord, hs]]
      exact hInv r hr
  · intro hInv row hrow r' hr'
    rcases mem_applyResultRow t reg row r' hr' with hold | ⟨r, _, _, rfl⟩
    · exact hInv r' hold
    · intro hst
      simp only [applyRowToRecord] at hst ⊢
      exact hrow hst
  · intro hInv a r' hr'
    rcases mem_scanOutputOne t a reg r' hr' with hold | ⟨r, _, _, rfl⟩
    · exact hInv r' hold
    · intro _
      simp [scanRecordUpdate]

/-- C6 witness: every clause of the amended theorem instantiated at time 3
on a registry holding one completed record with its output path. -/
theorem completedJsonInv_amended_witness :
    completedJsonInv (insertIfAbsent 3 "100003" "/c.pdf" none [sampleCompleted]).2 ∧
    completedJsonInv (cmd_retry_failed 3 [sampleCompleted]).2 ∧
    completedJsonInv (applyResultRow 3 [sampleCompleted] sampleCompletedRow) ∧
    completedJsonInv (scanOutputOne 3
      { pmid := "100002", json_path := "/y.json", md_path := none } [sampleCompleted]) := by
  obtain ⟨h1, h2, h3, h4⟩ := completedJsonInv_amended 3 [sampleCompleted]
  exact ⟨h1 (by decide) "100003" "/c.pdf" none, h2 (by decide),
    h3 (by decide) sampleCompletedRow (by decide),
    h4 (by decide) { pmid := "100002", json_path := "/y.json", md_path := none }⟩

/-- The C7 invariant: updated_at never lags behind created_at. -/
abbrev updatedAtInv (reg : Registry) : Prop :=
  ∀ r ∈ reg, r.created_at ≤ r.updated_at

/-- A filesystem stub for the C7 counterexample: every path has size 5. -/
def c7Fs : String → Option Nat := fun _ => some 5

/-- C7 (counterexample): the file-size update mutates records without
setting updated_at.  On a registry with one pending record whose size is
unknown, cmd_update_sizes changes the registry (it stores file_size = 5)
yet every record's updated_at is exactly what it was before, because the
UPDATE statement in cmd_update_sizes sets only file_size.  So updated_at
is neither set to the current time nor strictly advanced by this
mutation. -/
theorem update_sizes_no_timestamp_counterexample :
    cmd_update_sizes c7Fs [samplePending] ≠ [samplePending] ∧
    (cmd_update_sizes c7Fs [samplePending]).map Record.updated_at =
      [samplePending].map Record.updated_at := by decide

/-- C7 (amended): result application, retry reset and output reconciliation
set updated_at to the operation's current time on every record they
change; the file-size update leaves updated_at (and created_at) of every
record unchanged; and updated_at greater than or equal to created_at is
preserved by all five public operations whenever the operation's clock is
at or after every record's creation time. -/
theorem timestamps_amended (t : Nat) (reg : Registry) :
    (∀ (row : ResultRow) (i : Nat) (r rr : Record), reg[i]? = some r →
      (applyResultRow t reg row)[i]? = some rr → rr ≠ r → rr.updated_at = t) ∧
    (∀ (i : Nat) (r rr : Record), reg[i]? = some r →
      ((cmd_retry_failed t reg).2)[i]? = some rr → rr ≠ r → rr.updated_at = t) ∧
    (∀ (a : Artifact) (i : Nat) (r rr : Record), reg[i]? = some r →
      (scanOutputOne t a reg)[i]? = some rr → rr ≠ r → rr.updated_at = t) ∧
    (∀ getSize : String → Option Nat,
      (cmd_update_sizes getSize reg).map Record.updated_at =
        reg.map Record.updated_at) ∧
    (updatedAtInv reg → (∀ r ∈ reg, r.created_at ≤ t) →
      ∀ (row : ResultRow) (a : Artifact) (getSize : String → Option Nat)
        (p path : String) (sz : Option Nat),
        updatedAtInv (applyResultRow t reg row) ∧
        updatedAtInv (cmd_retry_failed t reg).2 ∧
        updatedAtInv (scanOutputOne t a reg) ∧
        updatedAtInv (cmd_update_sizes getSize reg) ∧
        updatedAtInv (insertIfAbsent t p path sz reg).2) := by
  refine ⟨?_, ?_, ?_, ?_, ?_⟩
  · intro row i r rr h1 h2 hne
    by_cases hp : pyStrip row.pmid = ""
    · unfold applyResultRow at h2
      rw [if_pos hp, h1] at h2
      exact absurd (Option.some_inj.mp h2).symm hne
    · unfold applyResultRow at h2
      rw [if_neg hp, List.getElem?_map, h1] at h2
      by_cases hm : r.pmid = pyStrip row.pmid
      · rw [Option.map_some'] at h2
        rw [if_pos hm] at h2
        rw [← Option.some_inj.mp h2]
        simp [applyRowToRecord]
      · rw [Option.map_some'] at h2
        rw [if_neg hm] at h2
        exact absurd (Option.some_inj.mp h2).symm hne
  · intro i r rr h1 h2 hne
    rw [cmd_retry_failed_snd, List.getElem?_map, h1, Option.map_some'] at h2
    by_cases hs : r.status = "failed"
    · rw [← Option.some_inj.mp h2]
      simp [retryResetRecord, hs]
    · rw [show retryResetRecord t r = r from by simp [retryResetRecord, hs]] at h2
      exact absurd (Option.some_inj.mp h2).symm hne
  · intro a i r rr h1 h2 hne
    unfold scanOutputOne at h2
    rw [List.getElem?_map, h1, Option.map_some'] at h2
    by_cases hc : r.pmid = a.pmid ∧ r.status ≠ "completed"
    · rw [if_pos hc] at h2
      rw [← Option.some_inj.mp h2]
      simp [scanRecordUpdate]
    · rw [if_neg hc] at h2
      exact absurd (Option.some_inj.mp h2).symm hne
  · intro getSize
    rw [cmd_update_sizes, List.map_map]
    refine List.map_congr_left fun r _ => ?_
    by_cases hf : r.file_size = none
    · rcases hg : getSize r.pdf_path with _ | sz
      · simp [Function.comp, hf, hg]
      · simp [Function.comp, hf, hg]
    · simp [Function.comp, hf]
  · intro hInv hle row a getSize p path sz
    refine ⟨?_, ?_, ?_, ?_, ?_⟩
    · intro r' hr'
      rcases mem_applyResultRow t reg row r' hr' with hold | ⟨r, hr, _, rfl⟩
      · exact hInv r' hold
      · simpa [applyRowToRecord] using hle r hr
    · intro r' hr'
      rw [cmd_retry_failed_snd] at hr'
      obtain ⟨r, hr, rfl⟩ := List.mem_map.mp hr'
      by_cases hs : r.status = "failed"
      · simpa [retryResetRecord, hs] using hle r hr
      · rw [show retryResetRecord t r = r from by simp [retryResetRecord, hs]]
        exact hInv r hr
    · intro r' hr'
      rcases mem_scanOutputOne t a reg r' hr' with hold | ⟨r, hr, _, rfl⟩
      · exact hInv r' hold
      · simpa [scanRecordUpdate] using hle r hr
    · intro r' hr'
      unfold cmd_update_sizes at hr'
      obtain ⟨r, hr, rfl⟩ := List.mem_map.mp hr'
      by_cases hf : r.file_size = none
      · rcases hg : getSize r.pdf_path with _ | szr
        · simpa [hf, hg] using hInv r hr
        · simpa [hf, hg] using hInv r hr
      · simpa [hf] using hInv r hr
    · intro r' hr'
      by_cases hany : reg.any (fun r => r.pmid = p)
      · exact hInv r' (by simpa [insertIfAbsent, hany] using hr')
      · have hmem : r' ∈ reg ++ [freshRecord t p path sz] := by
          simpa [insertIfAbsent, hany] using hr'
        rcases List.mem_append.mp hmem with hold | hnew
        · exact hInv r' hold
        · rw [List.mem_singleton] at hnew
          subst hnew
          simp [freshRecord]

/-- C7 witness: the amended theorem instantiated at time 9 on a registry
holding one failed record. -/
theorem timestamps_amended_witness :
    (applyRowToRecord 9 sampleCompletedRow sampleFailed).updated_at = 9 ∧
    (retryResetRecord 9 sampleFailed).updated_at = 9 ∧
    (scanRecordUpdate 9 { pmid := "100001", json_path := "/x.json", md_path := none }
      sampleFailed).updated_at = 9 ∧
    (cmd_update_sizes c7Fs [sampleFailed]).map Record.updated_at =
      ([sampleFailed] : Registry).map Record.updated_at ∧
    updatedAtInv (applyResultRow 9 [sampleFailed] sampleCompletedRow) := by
  obtain ⟨h1, h2, h3, h4, h5⟩ := timestamps_amended 9 [sampleFailed]
  refine ⟨h1 sampleCompletedRow 0 sampleFailed
      (applyRowToRecord 9 sampleCompletedRow sampleFailed) (by decide) (by decide) (by decide),
    h2 0 sampleFailed (retryResetRecord 9 sampleFailed) (by decide) (by decide) (by decide),
    h3 { pmid := "100001", json_path := "/x.json", md_path := none } 0 sampleFailed
      (scanRecordUpdate 9 { pmid := "100001", json_path := "/x.json", md_path := none }
        sampleFailed) (by decide) (by decide) (by decide),
    h4 c7Fs, ?_⟩
  exact (h5 (by decide) (by decide) sampleCompletedRow
    { pmid := "100001", json_path := "/x.json", md_path := none } c7Fs "p" "/q.pdf" none).1

/-- Stable insertion into a name-sorted list of (filename, rows) pairs,
used to model the Python sorted(input_dir.glob(pattern)) call. -/
def insertByName (x : String × List ResultRow) :
    List (String × List ResultRow) → List (String × List ResultRow)
  | [] => [x]
  | y :: ys => if x.1 ≤ y.1 then x :: y :: ys else y :: insertByName x ys

/-- Sort report files by filename (insertion sort, modelling sorted()). -/
def sortByName (files : List (String × List ResultRow)) :
    List (String × List ResultRow) :=
  files.foldr insertByName []

/-- load_csv_files (scripts/merge_mineru_results.py, lines 92-106): read
the files matching the glob in sorted filename order and concatenate their
rows in file order into one record list. -/
def load_csv_files (files : List (String × List ResultRow)) : List ResultRow :=
  ((sortByName files).map Prod.snd).flatten

/-- The deduplication step of save_output
(scripts/merge_mineru_results.py, lines 122-138): pandas
drop_duplicates(subset=[pmid], keep=last) keeps a row exactly when no
later row has the same pmid, preserving the order of the survivors. -/
def save_output_dedupe : List ResultRow → List ResultRow
  | [] => []
  | r :: rest =>
    if rest.any (fun s => s.pmid = r.pmid) then save_output_dedupe rest
    else r :: save_output_dedupe rest

/-- The consolidated output of merge_mineru_results: load all chunk report
files, then deduplicate by pmid keeping the last row. -/
def merged_results (files : List (String × List ResultRow)) : List ResultRow :=
  save_output_dedupe (load_csv_files files)

/-- Helper: the rows with a given pmid surviving deduplication are exactly
the last row with that pmid in ingestion order (none when the pmid never
occurs). -/
theorem save_output_dedupe_filter (p : String) :
    ∀ l : List ResultRow,
      (save_output_dedupe l).filter (fun r => r.pmid = p) =
        (l.reverse.find? (fun r => r.pmid = p)).toList := by
  intro l
  induction l with
  | nil => simp [save_output_dedupe]
  | cons r rest ih =>
    rw [List.reverse_cons, List.find?_append]
    by_cases hdup : rest.any (fun s => s.pmid = r.pmid)
    · rw [show save_output_dedupe (r :: rest) = save_output_dedupe rest from by
        simp [save_output_dedupe, hdup]]
      rw [ih]
      by_cases hp : r.pmid = p
      · have hex : ∃ x ∈ rest.reverse, decide (x.pmid = p) = true := by
          obtain ⟨s, hs, hsp⟩ := List.any_eq_true.mp hdup
          refine ⟨s, List.mem_reverse.mpr hs, ?_⟩
          have : s.pmid = r.pmid := by simpa using hsp
          simp [this, hp]
        have hsome := List.find?_isSome.mpr hex
        rcases hfind : List.find? (fun r => r.pmid = p) rest.reverse with _ | v
        · rw [hfind] at hsome
          simp at hsome
        · rw [hfind]
          rfl
      · have hnil : List.find? (fun r => r.pmid = p) [r] = none := by
          simp [List.find?_cons, hp]
        rw [hnil, Option.or_none]
    · rw [show save_output_dedupe (r :: rest) = r :: save_output_dedupe rest from by
        simp [save_output_dedupe, hdup]]
      have hnodupmem : ∀ s ∈ rest, ¬ s.pmid = r.pmid := by simpa using hdup
      by_cases hp : r.pmid = p
      · have hnone : List.find? (fun r => r.pmid = p) rest.reverse = none := by
          rw [List.find?_eq_none]
          intro x hx
          simp only [decide_eq_true_eq]
          intro hc
          exact hnodupmem x (List.mem_reverse.mp hx) (hc.trans hp.symm)
        rw [List.filter_cons, if_pos (by simpa using hp), ih, hnone]
        simp [List.find?_cons, hp]
      · rw [List.filter_cons, if_neg (by simpa using hp), ih]
        have hnil : List.find? (fun r => r.pmid = p) [r] = none := by
          simp [List.find?_cons, hp]
        rw [hnil, Option.or_none]

/-- C2: merge precedence.  For every set of report files and every pmid,
the rows of the consolidated deduplicated output carrying that pmid are
exactly the last row with that pmid in report ingestion order (files in
sorted filename order as concatenated by load_csv_files, rows in file
order): one row, equal to the latest report, when the pmid occurs at all,
and no row otherwise.  In particular the later of two reports for the
same id wins, regardless of which file stored it. -/
theorem merged_results_last_wins (files : List (String × List ResultRow)) (p : String) :
    (merged_results files).filter (fun r => r.pmid = p) =
      ((load_csv_files files).reverse.find? (fun r => r.pmid = p)).toList :=
  save_output_dedupe_filter p (load_csv_files files)

/-- The chunk loop of generate_swarm
(scripts/generate_cleanup_swarm.py, lines 17-21): for i in
range(0, len(pmids), chunk_size) emit the slice pmids[i : i + chunk_size].
Python's stepped range has (n + k - 1) / k elements, and the slice is
drop i followed by take k. -/
def generate_swarm_chunks (pmids : List String) (k : Nat) : List (List String) :=
  (List.range' 0 ((pmids.length + k - 1) / k) k).map fun i => (pmids.drop i).take k

/-- Recursive reformulation of the chunk loop, used for the inductive
proofs and shown equal to generate_swarm_chunks below. -/
def chunkStep (k : Nat) (l : List String) : List (List String) :=
  if h : l = [] ∨ k = 0 then [] else l.take k :: chunkStep k (l.drop k)
termination_by l.length
decreasing_by
  push_neg at h
  have hk : 0 < k := Nat.pos_of_ne_zero h.2
  have hl : 0 < l.length := List.length_pos.mpr h.1
  simp only [List.length_drop]
  omega

/-- Helper: one step of the ceiling division (n + k - 1) / k. -/
theorem ceil_div_succ (k n : Nat) (hk : 0 < k) (hn : 0 < n) :
    (n + k - 1) / k = ((n - k) + k - 1) / k + 1 := by
  by_cases h : k ≤ n
  · have e1 : n - k + k - 1 = n - 1 := by omega
    have e2 : n + k - 1 = (n - 1) + k := by omega
    rw [e1, e2, Nat.add_div_right _ hk]
  · have e1 : n - k = 0 := by omega
    rw [e1]
    have e2 : n + k - 1 = (n - 1) + k := by omega
    rw [e2, Nat.add_div_right _ hk, Nat.div_eq_of_lt (show n - 1 < k by omega)]
    rw [Nat.div_eq_of_lt (show 0 + k - 1 < k by omega)]

/-- Helper: shifting the start of a stepped range commutes with map. -/
theorem range'_map_shift {α : Type} (f : Nat → α) (k : Nat) :
    ∀ (m s : Nat), (List.range' (s + k) m k).map f =
      (List.range' s m k).map fun i => f (i + k) := by
  intro m
  induction m with
  | zero => intro s; rfl
  | succ m ih =>
    intro s
    rw [List.range'_succ, List.range'_succ]
    simp only [List.map_cons, List.cons.injEq]
    exact ⟨trivial, ih (s + k)⟩

/-- Helper: the range-and-slice loop equals the recursive chunking. -/
theorem generate_swarm_chunks_eq_chunkStep (k : Nat) (hk : 0 < k) :
    ∀ l : List String, generate_swarm_chunks l k = chunkStep k l := by
  intro l
  induction l using chunkStep.induct k with
  | case1 l h =>
    rcases h with h | h
    · subst h
      unfold generate_swarm_chunks chunkStep
      simp [Nat.div_eq_of_lt (show k - 1 < k by omega)]
    · omega
  | case2 l h ih =>
    have hpair := h
    push_neg at hpair
    obtain ⟨hne, hk0⟩ := hpair
    have hn : 0 < l.length := List.length_pos.mpr hne
    have hstep : chunkStep k l = l.take k :: chunkStep k (l.drop k) := by
      rw [chunkStep, dif_neg h]
    rw [hstep, ← ih]
    unfold generate_swarm_chunks
    rw [List.length_drop]
    rw [ceil_div_succ k l.length hk hn, List.range'_succ]
    simp only [List.map_cons, List.cons.injEq]
    refine ⟨by simp, ?_⟩
    rw [range'_map_shift]
    refine List.map_congr_left fun i _ => ?_
    rw [List.drop_drop, Nat.add_comm k i]

/-- Helper: the chunks concatenate back to the input. -/
theorem chunkStep_flatten (k : Nat) (hk : 0 < k) :
    ∀ l : List String, (chunkStep k l).flatten = l := by
  intro l
  induction l using chunkStep.induct k with
  | case1 l h =>
    rcases h with h | h
    · subst h
      rw [chunkStep]
      simp
    · omega
  | case2 l h ih =>
    rw [chunkStep, dif_neg h, List.flatten_cons, ih, List.take_append_drop]

/-- Helper: the number of chunks is the ceiling of n / k. -/
theorem chunkStep_length (k : Nat) (hk : 0 < k) :
    ∀ l : List String, (chunkStep k l).length = (l.length + k - 1) / k := by
  intro l
  induction l using chunkStep.induct k with
  | case1 l h =>
    rcases h with h | h
    · subst h
      rw [chunkStep, dif_pos (Or.inl rfl)]
      simp only [List.length_nil, Nat.zero_add]
      exact (Nat.div_eq_of_lt (show k - 1 < k by omega)).symm
    · omega
  | case2 l h ih =>
    have hpair := h
    push_neg at hpair
    obtain ⟨hne, hk0⟩ := hpair
    have hn : 0 < l.length := List.length_pos.mpr hne
    rw [chunkStep, dif_neg h]
    simp only [List.length_cons, ih, List.length_drop]
    rw [ceil_div_succ k l.length hk hn]

/-- Helper: every chunk is a nonempty slice of at most k elements. -/
theorem chunkStep_mem (k : Nat) (hk : 0 < k) :
    ∀ l : List String, ∀ c ∈ chunkStep k l, c.length ≤ k ∧ c ≠ [] := by
  intro l
  induction l using chunkStep.induct k with
  | case1 l h =>
    intro c hc
    rw [chunkStep, dif_pos h] at hc
    cases hc
  | case2 l h ih =>
    intro c hc
    have hpair := h
    push_neg at hpair
    obtain ⟨hne, hk0⟩ := hpair
    rw [chunkStep, dif_neg h] at hc
    rcases List.mem_cons.mp hc with hc | hc
    · subst hc
      refine ⟨?_, ?_⟩
      · rw [List.length_take]
        exact min_le_left _ _
      · intro hnil
        rcases List.take_eq_nil_iff.mp hnil with h0 | h0
        · exact hk0 h0
        · exact hne h0
    · exact ih c hc

/-- Helper: the last chunk has n mod k elements (k when k divides n). -/
theorem chunkStep_getLast (k : Nat) (hk : 0 < k) :
    ∀ l : List String, l ≠ [] → ∀ c, (chunkStep k l).getLast? = some c →
      c.length = if l.length % k = 0 then k else l.length % k := by
  intro l
  induction l using chunkStep.induct k with
  | case1 l h =>
    intro hne c _
    rcases h with h | h
    · exact absurd h hne
    · omega
  | case2 l h ih =>
    intro hne c hc
    have hpair := h
    push_neg at hpair
    obtain ⟨hne2, hk0⟩ := hpair
    rw [chunkStep, dif_neg h] at hc
    by_cases hd : l.drop k = []
    · have hnil : chunkStep k (l.drop k) = [] := by
        rw [hd, chunkStep, dif_pos (Or.inl rfl)]
      rw [hnil] at hc
      have hceq : c = l.take k := by
        simpa using hc.symm
      have hnk : l.length ≤ k := List.drop_eq_nil_iff.mp hd
      have hn : 0 < l.length := List.length_pos.mpr hne2
      have hlen : c.length = min k l.length := by
        rw [hceq]
        exact List.length_take k l
      by_cases hmod : l.length % k = 0
      · have hEq : l.length = k := by
          rcases Nat.lt_or_ge l.length k with hlt | hge
          · have := Nat.mod_eq_of_lt hlt
            omega
          · omega
        rw [if_pos hmod, hlen, hEq]
        simp
      · have hlt : l.length < k := by
          rcases Nat.lt_or_ge l.length k with hlt | hge
          · exact hlt
          · have hEq : l.length = k := by omega
            exfalso
            apply hmod
            rw [hEq]
            exact Nat.mod_self k
        rw [if_neg hmod, hlen]
        rw [Nat.mod_eq_of_lt hlt]
        exact Nat.min_eq_right (Nat.le_of_lt hlt)
    · have hrec_ne : chunkStep k (l.drop k) ≠ [] := by
        rw [chunkStep, dif_neg (by push_neg; exact ⟨hd, hk0⟩)]
        simp
      rcases hrc : chunkStep k (l.drop k) with _ | ⟨c0, cs⟩
      · exact absurd hrc hrec_ne
      · rw [hrc, List.getLast?_cons_cons] at hc
        have hlast := ih hd c (by rw [hrc]; exact hc)
        rw [List.length_drop] at hlast
        have hge : k ≤ l.length := by
          by_contra hlt
          push_neg at hlt
          exact hd (List.drop_eq_nil_iff.mpr (Nat.le_of_lt hlt))
        have hmodeq : (l.length - k) % k = l.length % k := by
          conv_rhs => rw [show l.length = (l.length - k) + k by omega]
          rw [Nat.add_mod_right]
        rw [hmodeq] at hlast
        exact hlast

/-- C3: partition coverage.  For every ordered id sequence and chunk size
k greater than 0, the chunking produces exactly ceil(n / k) chunks whose
concatenation is the input sequence (so the chunks are contiguous slices
in input order), every chunk is nonempty with at most k elements, every
id occurs across the chunks exactly as often as in the input, and the
last chunk has n mod k elements (k when k divides n). -/
theorem generate_swarm_chunks_spec (pmids : List String) (k : Nat) (hk : 0 < k) :
    (generate_swarm_chunks pmids k).flatten = pmids ∧
    (generate_swarm_chunks pmids k).length = (pmids.length + k - 1) / k ∧
    (∀ c ∈ generate_swarm_chunks pmids k, c.length ≤ k ∧ c ≠ []) ∧
    (∀ x : String,
      ((generate_swarm_chunks pmids k).map (fun c => c.count x)).sum = pmids.count x) ∧
    (pmids ≠ [] → ∀ c, (generate_swarm_chunks pmids k).getLast? = some c →
      c.length = if pmids.length % k = 0 then k else pmids.length % k) := by
  rw [generate_swarm_chunks_eq_chunkStep k hk]
  refine ⟨chunkStep_flatten k hk pmids, chunkStep_length k hk pmids,
    chunkStep_mem k hk pmids, ?_, chunkStep_getLast k hk pmids⟩
  intro x
  rw [← List.count_flatten, chunkStep_flatten k hk pmids]

/-- C3 witness: the spec's own example, ids 100001-100003 with chunk size
2, giving chunks of sizes 2 and 1. -/
theorem generate_swarm_chunks_spec_witness :
    (generate_swarm_chunks ["100001", "100002", "100003"] 2).flatten =
      ["100001", "100002", "100003"] ∧
    (generate_swarm_chunks ["100001", "100002", "100003"] 2).length = (3 + 2 - 1) / 2 ∧
    (["100003"] : List String).length =
      if (["100001", "100002", "100003"] : List String).length % 2 = 0 then 2
      else (["100001", "100002", "100003"] : List String).length % 2 := by
  obtain ⟨h1, h2, _, _, h5⟩ :=
    generate_swarm_chunks_spec ["100001", "100002", "100003"] 2 (by decide)
  exact ⟨h1, h2, h5 (by decide) ["100003"] (by decide)⟩

/-- Outcome of the opaque extractor call in process_single_pdf
(scripts/process_pdfs_mineru.py): the subprocess returned zero, returned
non-zero with some stderr, exceeded the 600-second timeout
(subprocess.TimeoutExpired), or raised some other exception. -/
inductive ExtractOutcome where
  | ok
  | exitErr (stderr : String)
  | timedOut
  | exc (name msg : String)
deriving DecidableEq

/-- The facts about the world that process_single_pdf observes for one
item: whether the input PDF exists, how the extractor call ended, which
content-list artifact (if any) exists on disk after the call, and which
sibling markdown file (if any) is found next to it. -/
structure PdfWorld where
  pdfExists : Bool
  outcome : ExtractOutcome
  contentListJson : Option String
  mdFile : Option String
deriving DecidableEq

/-- The result-report row built by process_single_pdf (the dict of lines
201-210, with processing_time and processed_at omitted as pure clock
reads). -/
structure ProcResult where
  pmid : String
  pdf_path : String
  status : String
  json_path : Option String
  md_path : Option String
  error_msg : Option String
deriving DecidableEq

/-- Python string slicing s[:n], by code points. -/
def pySlice (s : String) (n : Nat) : String :=
  ⟨s.data.take n⟩

/-- process_single_pdf (scripts/process_pdfs_mineru.py, lines 188-319), CLI
fallback path: a missing PDF fails immediately; a non-zero extractor exit
fails with the first 500 characters of stderr (or Unknown error) without
checking for output; a timeout fails with the fixed timeout message; any
other exception fails with the truncated exception text; and on an
apparently successful call the row is completed exactly when the expected
content-list artifact exists on disk, with a missing artifact recorded as
a failure, never as success. -/
def process_single_pdf (pmid pdfPathStr : String) (w : PdfWorld) : ProcResult :=
  if !w.pdfExists then
    { pmid := pmid, pdf_path := pdfPathStr, status := "failed", json_path := none,
      md_path := none, error_msg := some ("PDF file not found: " ++ pdfPathStr) }
  else
    match w.outcome with
    | .exitErr stderr =>
      { pmid := pmid, pdf_path := pdfPathStr, status := "failed", json_path := none,
        md_path := none,
        error_msg := some (if stderr = "" then "Unknown error" else pySlice stderr 500) }
    | .timedOut =>
      { pmid := pmid, pdf_path := pdfPathStr, status := "failed", json_path := none,
        md_path := none, error_msg := some "Processing timeout (10 min)" }
    | .exc n m =>
      { pmid := pmid, pdf_path := pdfPathStr, status := "failed", json_path := none,
        md_path := none, error_msg := some (n ++ ": " ++ pySlice m 200) }
    | .ok =>
      match w.contentListJson with
      | some jp =>
        { pmid := pmid, pdf_path := pdfPathStr, status := "completed",
          json_path := some jp, md_path := w.mdFile, error_msg := none }
      | none =>
        { pmid := pmid, pdf_path := pdfPathStr, status := "failed", json_path := none,
          md_path := none, error_msg := some "No output files generated by MinerU" }

/-- One manifest entry of a chunk run together with the world it is
processed in. -/
structure ChunkEntry where
  pmid : String
  pdf_path : String
  world : PdfWorld
deriving DecidableEq

/-- The chunk loop of main (scripts/process_pdfs_mineru.py, lines
373-408) with skip-existing off: every entry is processed in order and a
result row is appended for each; a failed item only increments the failure
counter, it never breaks the loop. -/
def processChunk (entries : List ChunkEntry) : List ProcResult :=
  entries.map fun e => process_single_pdf e.pmid e.pdf_path e.world

/-- C10 counterexample world: the extractor exits non-zero, yet the
expected content-list artifact is present on disk after the call. -/
def c10World : PdfWorld :=
  { pdfExists := true, outcome := .exitErr "model crash",
    contentListJson := some "/out/100001_content_list.json", mdFile := none }

/-- C10 (counterexample): the claimed biconditional fails.  When the
extractor exits non-zero, process_single_pdf returns early with a failed
row without checking the disk, so the row is failed even though the
expected artifact exists after the call. -/
theorem process_failed_despite_artifact_counterexample :
    (process_single_pdf "100001" "/a.pdf" c10World).status = "failed" ∧
    c10World.contentListJson ≠ none := by decide

/-- C10 (amended): a completed row implies the artifact existed (with a
successful extractor call on an existing PDF), and on an apparently
successful call completedness is equivalent to artifact existence, with a
missing artifact recorded as failed; an extractor error or timeout is
failed regardless of any artifact on disk, a timeout carrying the fixed
timeout message; and the chunk loop still yields one result row per entry
whatever each item's outcome is. -/
theorem process_single_pdf_spec (pmid path : String) (w : PdfWorld)
    (entries : List ChunkEntry) :
    ((process_single_pdf pmid path w).status = "completed" →
      w.contentListJson ≠ none ∧ w.outcome = .ok ∧ w.pdfExists = true) ∧
    (w.pdfExists = true → w.outcome = .ok →
      ((process_single_pdf pmid path w).status = "completed" ↔
        w.contentListJson ≠ none)) ∧
    (w.pdfExists = true → w.outcome = .ok → w.contentListJson = none →
      (process_single_pdf pmid path w).status = "failed" ∧
      (process_single_pdf pmid path w).error_msg =
        some "No output files generated by MinerU") ∧
    (w.pdfExists = true → w.outcome = .timedOut →
      (process_single_pdf pmid path w).status = "failed" ∧
      (process_single_pdf pmid path w).error_msg =
        some "Processing timeout (10 min)") ∧
    (processChunk entries).length = entries.length ∧
    (∀ (i : Nat) (e : ChunkEntry), entries[i]? = some e →
      (processChunk entries)[i]? =
        some (process_single_pdf e.pmid e.pdf_path e.world)) := by
  obtain ⟨pdfE, outc, json, md⟩ := w
  refine ⟨?_, ?_, ?_, ?_, ?_, ?_⟩
  · intro hc
    cases pdfE
    · simp [process_single_pdf] at hc
    · cases outc
      case ok =>
        cases json
        · simp [process_single_pdf] at hc
        · exact ⟨by simp, rfl, rfl⟩
      case exitErr s => simp [process_single_pdf] at hc
      case timedOut => simp [process_single_pdf] at hc
      case exc n m => simp [process_single_pdf] at hc
  · intro hpdf hout
    cases pdfE
    · simp at hpdf
    · cases outc
      case ok => cases json <;> simp [process_single_pdf]
      case exitErr s => simp at hout
      case timedOut => simp at hout
      case exc n m => simp at hout
  · intro hpdf hout hjson
    cases pdfE
    · simp at hpdf
    · cases outc
      case ok =>
        cases json
        · exact ⟨by simp [process_single_pdf], by simp [process_single_pdf]⟩
        · simp at hjson
      case exitErr s => simp at hout
      case timedOut => simp at hout
      case exc n m => simp at hout
  · intro hpdf hout
    cases pdfE
    · simp at hpdf
    · cases outc
      case ok => simp at hout
      case exitErr s => simp at hout
      case timedOut =>
        exact ⟨by simp [process_single_pdf], by simp [process_single_pdf]⟩
      case exc n m => simp at hout
  · exact List.length_map entries _
  · intro i e he
    rw [processChunk, List.getElem?_map, he, Option.map_some']

/-- C10 witness: the amended theorem instantiated on a successful run with
an artifact on disk, a timed-out run, and a two-entry chunk containing one
failure followed by one success. -/
theorem process_single_pdf_spec_witness :
    (process_single_pdf "100001" "/a.pdf"
      { pdfExists := true, outcome := .ok,
        contentListJson := some "/out/100001_content_list.json",
        mdFile := none }).status = "completed" ∧
    (process_single_pdf "100002" "/b.pdf"
      { pdfExists := true, outcome := .timedOut, contentListJson := none,
        mdFile := none }).status = "failed" ∧
    (process_single_pdf "100002" "/b.pdf"
      { pdfExists := true, outcome := .timedOut, contentListJson := none,
        mdFile := none }).error_msg = some "Processing timeout (10 min)" ∧
    (processChunk
      [{ pmid := "100002", pdf_path := "/b.pdf",
         world := { pdfExists := true, outcome := .timedOut,
                    contentListJson := none, mdFile := none } },
       { pmid := "100001", pdf_path := "/a.pdf",
         world := { pdfExists := true, outcome := .ok,
                    contentListJson := some "/out/100001_content_list.json",
                    mdFile := none } }]).length = 2 := by
  have h1 := (process_single_pdf_spec "100001" "/a.pdf"
    { pdfExists := true, outcome := .ok,
      contentListJson := some "/out/100001_content_list.json", mdFile := none }
    []).2.1 rfl rfl
  have h2 := (process_single_pdf_spec "100002" "/b.pdf"
    { pdfExists := true, outcome := .timedOut, contentListJson := none,
      mdFile := none } []).2.2.2.1 rfl rfl
  have h3 := (process_single_pdf_spec "100001" "/a.pdf"
    { pdfExists := true, outcome := .ok,
      contentListJson := some "/out/100001_content_list.json", mdFile := none }
    [{ pmid := "100002", pdf_path := "/b.pdf",
       world := { pdfExists := true, outcome := .timedOut,
                  contentListJson := none, mdFile := none } },
     { pmid := "100001", pdf_path := "/a.pdf",
       world := { pdfExists := true, outcome := .ok,
                  contentListJson := some "/out/100001_content_list.json",
                  mdFile := none } }]).2.2.2.2.1
  exact ⟨h1.mpr (by decide), h2.1, h2.2, h3⟩

end MinerU
